import Mathlib

/-!
Verification of the SSFM core of the 2D Schrödinger simulator.

The development shallowly embeds the numerical core of the repository:
`src/core/Wavefunction.h`, `src/core/PhysicsConfig.h` and
`src/solver/SimulationEngine.cpp`.  C++ `double` arithmetic is modelled by
exact real arithmetic (`ℝ`), `std::complex<double>` by `ℂ`, and C++ `int`
by `ℤ`; IEEE rounding, overflow to infinity and NaN propagation are not
modelled.  Loops that visit each grid point `(i, j)` for `0 ≤ i < nx`,
`0 ≤ j < ny` and write each entry exactly once are modelled as pointwise
function updates; sums over the grid are finite sums over
`Finset.range nx.toNat ×ˢ Finset.range ny.toNat` (a C++ `for (int i = 0;
i < m_nx; ++i)` loop performs no iteration when `m_nx ≤ 0`, which `Int.toNat`
reproduces).

Two pieces of repository code are not present under `src/` and are therefore
modelled from the specification, as marked in their doc comments: the
`Potential` class hierarchy (`src/core/Potential.h`) and the FFTW library
calls (planning and execution of the in-place 2D transforms).
-/

noncomputable section

open Complex Finset

/-- The record `struct Wavepacket` from `src/core/PhysicsConfig.h`: the six Gaussian
parameters. -/
structure Wavepacket where
  x0 : ℝ
  y0 : ℝ
  sigmaX : ℝ
  sigmaY : ℝ
  kx : ℝ
  ky : ℝ

/-- The record `struct Potential` from `src/core/PhysicsConfig.h` (the configuration
record, distinct from the polymorphic `Potential` class; renamed to avoid the
clash). -/
structure PotentialConfig where
  type : String
  parameters : List ℝ

/-- The record `struct Output` from `src/core/PhysicsConfig.h`. -/
structure OutputConfig where
  checkpointInterval : ℝ
  exportObservables : Bool

/-- The record `struct PhysicsConfig` from `src/core/PhysicsConfig.h`. -/
structure PhysicsConfig where
  nx : ℤ
  ny : ℤ
  dt : ℝ
  omega : ℝ
  potential : PotentialConfig
  wavepacket : Wavepacket
  output : OutputConfig

/-- Modelled from the spec: the polymorphic `Potential` class
(`src/core/Potential.h` is not among the sources; only its callers and tests
are).  Per spec §3/§4.2 a potential is a stationary real-valued function with
the capability set `{evaluate(x,y) → double, type_name() → string}`; the
engine calls these `getValue` and `getType` (see the tests in
`tests/unit/PotentialTests.cpp`). -/
structure Potential where
  getValue : ℝ → ℝ → ℝ
  getType : String

/-- Modelled from the spec: the minimum to which a non-positive
`SquareBarrier` width is clamped.  The spec states that `W` "is clamped to a
positive minimum" without fixing the value; no claim depends on it. -/
def barrierMinWidth : ℝ := 1 / 10

/-- Modelled from the spec: the minimum to which a non-positive
`HarmonicOscillator` frequency is clamped; the numeric value is not fixed by
the spec and no claim depends on it. -/
def oscillatorMinOmega : ℝ := 1 / 10

/-- Modelled from the spec: default parameter values substituted by the
factory when the parameter list is too short (spec §4.2: "Missing parameters
are substituted by documented defaults, never cause failure").  The defaults
for the barrier centre are 0 (per `PotentialTests.cpp`, a barrier built from
`{height}` alone evaluates to `height` at the origin); the remaining numeric
defaults are not fixed by the spec and no claim depends on them. -/
def defaultBarrierHeight : ℝ := 1

/-- Modelled from the spec: default barrier width (see
`defaultBarrierHeight`). -/
def defaultBarrierWidth : ℝ := 1

/-- Modelled from the spec: default oscillator frequency (see
`defaultBarrierHeight`). -/
def defaultOmega : ℝ := 1

/-- Modelled from the spec: the `FreeSpace` potential, `V ≡ 0`. -/
def FreeSpacePotential : Potential :=
  { getValue := fun _ _ => 0, getType := "FreeSpace" }

/-- Modelled from the spec: `SquareBarrier(H, W, x_c, y_c)`:
`V(x,y) = H` if `|x−x_c| ≤ W/2` and `|y−y_c| ≤ W/2`, else 0; `W` clamped to a
positive minimum. -/
def SquareBarrierPotential (height width xc yc : ℝ) : Potential :=
  { getValue := fun x y =>
      let w := max width barrierMinWidth
      if |x - xc| ≤ w / 2 ∧ |y - yc| ≤ w / 2 then height else 0
    getType := "SquareBarrier" }

/-- Modelled from the spec: `HarmonicOscillator(ω)`:
`V(x,y) = ½·ω²·(x² + y²)`, `ω` clamped to a positive minimum. -/
def HarmonicOscillatorPotential (omega : ℝ) : Potential :=
  { getValue := fun x y =>
      let om := max omega oscillatorMinOmega
      (1 / 2) * (om * om) * (x * x + y * y)
    getType := "HarmonicOscillator" }

/-- Modelled from the spec: the string-dispatched factory
`Potential::create(name, parameters)`; unknown names fall back to `FreeSpace`,
missing parameters are substituted by defaults (spec §4.2 and
`PotentialTests.cpp`). -/
def Potential.create (type : String) (params : List ℝ) : Potential :=
  if type = "SquareBarrier" then
    SquareBarrierPotential (params.getD 0 defaultBarrierHeight)
      (params.getD 1 defaultBarrierWidth) (params.getD 2 0) (params.getD 3 0)
  else if type = "HarmonicOscillator" then
    HarmonicOscillatorPotential (params.getD 0 defaultOmega)
  else
    FreeSpacePotential

/-- The error taxonomy of spec §7 that is relevant to the claims
(`InvalidGrid`, `InvalidDt`, `PlanCreation`, `DegenerateNorm`), together with
the two C++ exceptions the source can actually raise on degenerate inputs:
`VectorLength` is the `std::length_error` thrown when a negative `int` length
is passed to a `std::vector` fill constructor or `resize` (the value wraps
through `size_t` past `max_size()`), and `NullBuffer` is the
`std::runtime_error` thrown by the null-buffer check of
`SimulationEngine::initializeFFTWPlans` (lines 106–110). -/
inductive EngErr where
  | InvalidGrid : EngErr
  | InvalidDt : EngErr
  | PlanCreation : EngErr
  | DegenerateNorm : EngErr
  | VectorLength : EngErr
  | NullBuffer : EngErr
deriving DecidableEq, Repr

/-- The `Wavefunction` class of `src/core/Wavefunction.h`: dimensions
`m_nx, m_ny` (C++ `int`) and the dense row-major sample buffer
`m_data[i * m_ny + j]`, viewed through `operator()(i, j)` as a function of the
grid indices.  Only values at `i < nx.toNat`, `j < ny.toNat` correspond to
buffer entries; the operations below follow the source loops, which touch
exactly those indices. -/
structure Wavefunction where
  nx : ℤ
  ny : ℤ
  ψ : ℕ → ℕ → ℂ

namespace Wavefunction

/-- Constructor `Wavefunction(nx, ny)`: allocate `nx·ny` complex samples,
zero-initialized (`m_data(nx * ny, std::complex<double>(0.0, 0.0))`).  This
is the record the allocation produces when it succeeds; the allocation
itself, which throws for a negative element count, is `initE`. -/
def init (nx ny : ℤ) : Wavefunction :=
  { nx := nx, ny := ny, ψ := fun _ _ => 0 }

/-- The fallible allocation behind `Wavefunction(nx, ny)`: `m_data(nx * ny,
…)` converts the `int` product to `size_t`, so a negative `nx·ny` wraps past
`max_size()` and the fill constructor throws `std::length_error`. -/
def initE (nx ny : ℤ) : Except EngErr Wavefunction :=
  if nx * ny < 0 then Except.error EngErr.VectorLength
  else Except.ok (init nx ny)

/-- Method `Wavefunction::getTotalProbability(lx, ly)`: `dx = lx/m_nx`,
`dy = ly/m_ny`, `Σ std::norm(ψ(i,j)) * dx * dy` over the grid. -/
def getTotalProbability (w : Wavefunction) (lx ly : ℝ) : ℝ :=
  let dx := lx / (w.nx : ℝ)
  let dy := ly / (w.ny : ℝ)
  ∑ i ∈ range w.nx.toNat, ∑ j ∈ range w.ny.toNat,
    Complex.normSq (w.ψ i j) * dx * dy

/-- Method `Wavefunction::normalize(lx, ly)`: recompute the total probability with
the same loop as `getTotalProbability`, then multiply every sample by
`normFactor = 1.0 / std::sqrt(totalProb)`.  The source performs no check on
the computed total probability (it is a stub: "will be properly implemented
later"). -/
def normalize (w : Wavefunction) (lx ly : ℝ) : Wavefunction :=
  let normFactor := 1 / Real.sqrt (w.getTotalProbability lx ly)
  { w with ψ := fun i j => w.ψ i j * (normFactor : ℂ) }

/-- Method `Wavefunction::initializeGaussian(x0, y0, sigmaX, sigmaY, kx, ky, lx,
ly)`: write `envelope · exp(i(kx·x + ky·y))` at every grid point with
`x = −lx/2 + i·dx`, `envelope = exp(−r²/2)`,
`r² = (x−x0)²/σx² + (y−y0)²/σy²`; then `normalize(lx, ly)`. -/
def initializeGaussian (w : Wavefunction)
    (x0 y0 sigmaX sigmaY kx ky lx ly : ℝ) : Wavefunction :=
  let dx := lx / (w.nx : ℝ)
  let dy := ly / (w.ny : ℝ)
  let filled : Wavefunction :=
    { w with ψ := fun i j =>
        let x := -lx / 2 + (i : ℝ) * dx
        let y := -ly / 2 + (j : ℝ) * dy
        let r2 := (x - x0) * (x - x0) / (sigmaX * sigmaX)
          + (y - y0) * (y - y0) / (sigmaY * sigmaY)
        let envelope := Real.exp (-r2 / 2)
        (envelope : ℂ) * Complex.exp ⟨0, kx * x + ky * y⟩ }
  filled.normalize lx ly

/-- Method `Wavefunction::getProbabilityDensity()`: a fresh array of `m_nx · m_ny`
entries with `density[i * m_ny + j] = std::norm(ψ(i,j))`.  Each flat index
`idx < nx·ny` decomposes uniquely as `idx = i·ny + j` with `i = idx / ny`,
`j = idx % ny`, which is how the written value is recovered here.  The
narrowing cast to C++ `float` is not modelled. -/
def getProbabilityDensity (w : Wavefunction) : List ℝ :=
  (List.range (w.nx.toNat * w.ny.toNat)).map fun idx =>
    Complex.normSq (w.ψ (idx / w.ny.toNat) (idx % w.ny.toNat))

end Wavefunction

/-- Modelled from the spec: the observable behaviour of FFTW plan creation
(`fftw_plan_dft_2d` with `FFTW_MEASURE`; the FFTW library is outside the
sources).  Per spec §4.3, planning may fail (`ok = false`, surfaced by the
engine as a plan-creation error) and "is permitted to inspect the buffer and
may overwrite it" (`overwrites`/`scratch`: when planning overwrites, the
buffer afterwards holds planner scratch data unrelated to its prior
contents). -/
structure Planner where
  ok : Bool
  overwrites : Bool
  scratch : ℕ → ℕ → ℂ

/-- The mutable state of `SimulationEngine` (`src/solver/SimulationEngine.h`):
grid shape, domain extents, spacings, time step, clock, wavefunction,
potential, stored wavepacket, precomputed k-grids (`std::vector<double>`,
modelled as lists so that resizing is observable), plan validity, and the
single stored step-completion callback (observers are identified by a
number).  The `EventBus` member is an external collaborator (spec §1) and is
not modelled. -/
structure EngineState where
  nx : ℤ
  ny : ℤ
  lx : ℝ
  ly : ℝ
  dx : ℝ
  dy : ℝ
  dt : ℝ
  currentTime : ℝ
  wavefunction : Wavefunction
  potential : Potential
  wavepacket : Wavepacket
  kx : List ℝ
  ky : List ℝ
  plansValid : Bool
  stepCompletionCallback : Option ℕ

namespace SimulationEngine

/-- The k-grid loop of `SimulationEngine.cpp` (constructor lines 38–52 and
`updateConfig` lines 313–327): for a length-`n` axis of extent `len`,
`k[i] = 2π·i/len` when `i ≤ n/2` (C++ integer division), else
`k[i] = 2π·(i−n)/len`. -/
def kGrid (n : ℤ) (len : ℝ) : List ℝ :=
  (List.range n.toNat).map fun (i : ℕ) =>
    if (i : ℤ) ≤ n / 2 then 2 * Real.pi * (i : ℝ) / len
    else 2 * Real.pi * (((i : ℤ) - n : ℤ) : ℝ) / len

/-- Modelled from the spec: execution of an in-place 2D complex DFT on the
row-major buffer (`fftw_execute`; FFTW is outside the sources).  The shape
`(nx, ny)` is the one the plan was created with — the engine's grid
dimensions, not the field's own.  `s = -1` is the FFTW forward transform,
`s = 1` the backward one; both are un-normalized (spec §4.3):
`ψ̂(a,b) = Σ_{i,j} ψ(i,j) · exp(s·2πi·(a·i/nx + b·j/ny))`. -/
def dft2 (s : ℤ) (nx ny : ℤ) (f : ℕ → ℕ → ℂ) : ℕ → ℕ → ℂ :=
  fun a b =>
    ∑ i ∈ range nx.toNat, ∑ j ∈ range ny.toNat,
      f i j * Complex.exp ((s : ℂ) * (2 * (Real.pi : ℂ) * Complex.I) *
        ((a : ℂ) * (i : ℂ) / (nx : ℂ) + (b : ℂ) * (j : ℂ) / (ny : ℂ)))

/-- Method `SimulationEngine::initializeWavefunction()`: re-run `initializeGaussian`
with the stored wavepacket and the stored domain extents, then set
`m_currentTime = 0.0`.  (The debug logging writes no engine state.) -/
def initializeWavefunction (st : EngineState) : EngineState :=
  { st with
    wavefunction := st.wavefunction.initializeGaussian
      st.wavepacket.x0 st.wavepacket.y0
      st.wavepacket.sigmaX st.wavepacket.sigmaY
      st.wavepacket.kx st.wavepacket.ky
      st.lx st.ly
    currentTime := 0 }

/-- Method `SimulationEngine::initializeFFTWPlans()`.  First the source's own
null-buffer check (lines 106–110): `m_wavefunction.data()` is null exactly
when the sample vector is empty, i.e. when the element count `nx·ny` is zero
(a negative count cannot occur — the allocation would already have thrown),
and then the method throws `std::runtime_error`, surfaced as `NullBuffer`.
Then the FFTW library calls, modelled from the spec through `Planner`: on
success the two plans are built against the wavefunction buffer (which
planning may overwrite); on failure the engine throws, surfaced as
`PlanCreation`.  The second component is the state the engine object is left
in. -/
def initializeFFTWPlans (pl : Planner) (st : EngineState) :
    Option EngErr × EngineState :=
  if st.wavefunction.nx * st.wavefunction.ny = 0 then
    (some EngErr.NullBuffer, st)
  else if pl.ok then
    (none,
      { st with
        plansValid := true
        wavefunction := if pl.overwrites
          then { st.wavefunction with ψ := pl.scratch }
          else st.wavefunction })
  else
    (some EngErr.PlanCreation, st)

/-- Method `SimulationEngine::cleanupFFTWPlans()`: destroy both plans. -/
def cleanupFFTWPlans (st : EngineState) : EngineState :=
  { st with plansValid := false }

/-- The `SimulationEngine` constructor (`SimulationEngine.cpp` lines 10–59).
Member-initializer order (declaration order of the fields): `m_nx, m_ny,
m_lx = 20, m_ly = 20, m_dt, m_currentTime = 0, m_wavefunction(nx, ny),
m_wavepacket, m_kx(nx), m_ky(ny)`.  The wavefunction allocation throws
`std::length_error` when `nx·ny` is negative, and each k-vector fill
constructor throws it when its length is negative (the `int` wraps through
`size_t`); `m_dx`, `m_dy` and `m_potential` are assigned in the body before
first use and start from placeholders here.  Body order: spacings, potential
factory, `initializeWavefunction()`, `initializeFFTWPlans()` (which may throw
`NullBuffer` or `PlanCreation`), then the k-grid loops.  Any throw destroys
the partially constructed object, so failure is an `Except.error`. -/
def construct (cfg : PhysicsConfig) (pl : Planner) :
    Except EngErr EngineState :=
  match Wavefunction.initE cfg.nx cfg.ny with
  | Except.error e => Except.error e
  | Except.ok w0 =>
    if cfg.nx < 0 then Except.error EngErr.VectorLength
    else if cfg.ny < 0 then Except.error EngErr.VectorLength
    else
      let st0 : EngineState :=
        { nx := cfg.nx, ny := cfg.ny, lx := 20, ly := 20
          dx := 0, dy := 0
          dt := cfg.dt, currentTime := 0
          wavefunction := w0
          potential := FreeSpacePotential
          wavepacket := cfg.wavepacket
          kx := List.replicate cfg.nx.toNat 0
          ky := List.replicate cfg.ny.toNat 0
          plansValid := false
          stepCompletionCallback := none }
      let st1 := { st0 with dx := st0.lx / (cfg.nx : ℝ), dy := st0.ly / (cfg.ny : ℝ) }
      let st2 := { st1 with
        potential := Potential.create cfg.potential.type cfg.potential.parameters }
      let st3 := initializeWavefunction st2
      match initializeFFTWPlans pl st3 with
      | (some e, _) => Except.error e
      | (none, st4) =>
          Except.ok { st4 with kx := kGrid cfg.nx st4.lx, ky := kGrid cfg.ny st4.ly }

/-- Method `SimulationEngine::applyPotentialOperator()`: for every grid point,
`x = −lx/2 + i·m_dx`, `y = −ly/2 + j·m_dy`, `v = m_potential->getValue(x,y)`,
`phase = (0, −m_dt·v/2)`, `ψ(i,j) *= exp(phase)`. -/
def applyPotentialOperator (st : EngineState) : EngineState :=
  { st with wavefunction := { st.wavefunction with ψ := (fun i j =>
      let x := -st.lx / 2 + (i : ℝ) * st.dx
      let y := -st.ly / 2 + (j : ℝ) * st.dy
      let v := st.potential.getValue x y
      st.wavefunction.ψ i j * Complex.exp ⟨0, -st.dt * v / 2⟩) } }

/-- Method `SimulationEngine::applyKineticOperator()`: forward FFT; then for every
point `k = (m_kx[i]² + m_ky[j]²)/2`, `phase = (0, −m_dt·k)`,
`ψ̂(i,j) *= exp(phase)`; backward FFT; then multiply every sample by
`norm_factor = 1.0 / (m_nx · m_ny)`. -/
def applyKineticOperator (st : EngineState) : EngineState :=
  let st1 := { st with wavefunction := { st.wavefunction with
    ψ := dft2 (-1) st.nx st.ny st.wavefunction.ψ } }
  let st2 := { st1 with wavefunction := { st1.wavefunction with ψ := (fun i j =>
      let kx2 := st.kx.getD i 0 * st.kx.getD i 0
      let ky2 := st.ky.getD j 0 * st.ky.getD j 0
      let k := (kx2 + ky2) / 2
      st1.wavefunction.ψ i j * Complex.exp ⟨0, -st.dt * k⟩) } }
  let st3 := { st2 with wavefunction := { st2.wavefunction with
    ψ := dft2 1 st.nx st.ny st2.wavefunction.ψ } }
  let normFactor := 1 / (((st.nx * st.ny : ℤ)) : ℝ)
  { st3 with wavefunction := { st3.wavefunction with ψ := (fun i j =>
      st3.wavefunction.ψ i j * (normFactor : ℂ)) } }

/-- Method `SimulationEngine::step()` (lines 220–257): half-potential, kinetic,
half-potential, `m_currentTime += m_dt`, then invoke the stored
step-completion callback if registered.  The second component records the
callback invocations: observer id together with the simulation time and the
wavefunction it observes at the moment of the call (the `EventBus`
publications are an external concern, spec §1/§9, and are not modelled). -/
def step (st : EngineState) : EngineState × List (ℕ × ℝ × Wavefunction) :=
  let st1 := applyPotentialOperator st
  let st2 := applyKineticOperator st1
  let st3 := applyPotentialOperator st2
  let st4 := { st3 with currentTime := st3.currentTime + st3.dt }
  (st4,
    match st4.stepCompletionCallback with
    | some o => [(o, st4.currentTime, st4.wavefunction)]
    | none => [])

/-- The state after `step()` (discarding the callback trace). -/
def stepState (st : EngineState) : EngineState := (step st).1

/-- Method `SimulationEngine::reset()`: re-initialize the wavefunction (event
publications are external). -/
def reset (st : EngineState) : EngineState := initializeWavefunction st

/-- Behaviour of `std::vector::resize(n)` on a vector of doubles: keep the first `n`
entries, pad with zeros when growing. -/
def resizeList (l : List ℝ) (n : ℕ) : List ℝ :=
  l.take n ++ List.replicate (n - l.length) 0

/-- Method `SimulationEngine::updateConfig(config)` (lines 282–339), in source
order: destroy the plans; install `nx, ny, dt, wavepacket`; recompute the
spacings; replace the wavefunction by a freshly constructed zero-initialized
one of the new shape (the allocation throws `std::length_error` for a
negative `nx·ny`); build the new potential; `m_kx.resize(m_nx)` and
`m_ky.resize(m_ny)` (each throws `std::length_error` for a negative length —
the `int` wraps through `size_t`); `initializeFFTWPlans()` (which may throw
`NullBuffer` or `PlanCreation`); recompute the k-grids;
`initializeWavefunction()`.  Any throw propagates and the engine object keeps
the mutations made so far — the first component is `some` of the surfaced
error together with that partial state. -/
def updateConfig (cfg : PhysicsConfig) (pl : Planner) (st : EngineState) :
    Option EngErr × EngineState :=
  let st1 := cleanupFFTWPlans st
  let st2 := { st1 with
    nx := cfg.nx
    ny := cfg.ny
    dt := cfg.dt
    wavepacket := cfg.wavepacket }
  let st3 := { st2 with dx := st2.lx / (cfg.nx : ℝ), dy := st2.ly / (cfg.ny : ℝ) }
  match Wavefunction.initE cfg.nx cfg.ny with
  | Except.error e => (some e, st3)
  | Except.ok w =>
    let st4 := { st3 with wavefunction := w }
    let st5 := { st4 with
      potential := Potential.create cfg.potential.type cfg.potential.parameters }
    if cfg.nx < 0 then (some EngErr.VectorLength, st5)
    else
      let st6a := { st5 with kx := resizeList st5.kx cfg.nx.toNat }
      if cfg.ny < 0 then (some EngErr.VectorLength, st6a)
      else
        let st6 := { st6a with ky := resizeList st6a.ky cfg.ny.toNat }
        match initializeFFTWPlans pl st6 with
        | (some e, stF) => (some e, stF)
        | (none, st7) =>
            let st8 := { st7 with kx := kGrid cfg.nx st7.lx, ky := kGrid cfg.ny st7.ly }
            (none, initializeWavefunction st8)

/-- Method `SimulationEngine::setPotential(potential)`: replace the potential by
move; nothing else changes (event publications are external). -/
def setPotential (p : Potential) (st : EngineState) : EngineState :=
  { st with potential := p }

/-- Method `SimulationEngine::getTotalProbability()`:
`m_wavefunction.getTotalProbability(m_lx, m_ly)`. -/
def getTotalProbability (st : EngineState) : ℝ :=
  st.wavefunction.getTotalProbability st.lx st.ly

/-- Method `SimulationEngine::getCurrentTime()`. -/
def getCurrentTime (st : EngineState) : ℝ := st.currentTime

/-- Method `SimulationEngine::getProbabilityDensity()` (lines 374–387): a fresh
array of `m_nx · m_ny` entries with
`densityData[j * m_nx + i] = std::norm(ψ(i,j))`.  Each flat index `idx`
decomposes uniquely as `idx = j·nx + i` with `i = idx % nx`, `j = idx / nx`,
which is how the written value is recovered here.  The narrowing cast to C++
`float` is not modelled. -/
def getProbabilityDensity (st : EngineState) : List ℝ :=
  (List.range (st.nx.toNat * st.ny.toNat)).map fun idx =>
    Complex.normSq (st.wavefunction.ψ (idx % st.nx.toNat) (idx / st.nx.toNat))

/-- Method `SimulationEngine::setStepCompletionCallback(callback)`:
`m_stepCompletionCallback = std::move(callback)` — the single stored
callback is assigned. -/
def setStepCompletionCallback (o : ℕ) (st : EngineState) : EngineState :=
  { st with stepCompletionCallback := some o }

end SimulationEngine

namespace SpecSide

open SimulationEngine

/-- Two sample buffers that agree at every grid point of an `(nx, ny)` grid
(out-of-grid values have no buffer entry behind them). -/
def GridEq (nx ny : ℤ) (f g : ℕ → ℕ → ℂ) : Prop :=
  ∀ i j, i < nx.toNat → j < ny.toNat → f i j = g i j

/-- The k-grid of spec §3, as a function of the index: for a length-`n` axis
of extent `len`, `k_i = 2π·i/len` for `i ≤ n/2`, else `k_i = 2π·(i−n)/len`. -/
def specKGrid (n : ℤ) (len : ℝ) (i : ℕ) : ℝ :=
  if (i : ℤ) ≤ n / 2 then 2 * Real.pi * (i : ℝ) / len
  else 2 * Real.pi * (((i : ℤ) - n : ℤ) : ℝ) / len

/-- Claim C1, stages 1 and 5: every sample `ψ(i,j)` is multiplied by
`exp(−i·V(x_i, y_j)·dt/2)`, with `x_i = −Lx/2 + i·dx`, `dx = Lx/Nx`
(spec §3). -/
def specHalfV (nx ny : ℤ) (lx ly dt : ℝ) (V : ℝ → ℝ → ℝ)
    (f : ℕ → ℕ → ℂ) : ℕ → ℕ → ℂ :=
  fun i j =>
    let x := -lx / 2 + (i : ℝ) * (lx / (nx : ℝ))
    let y := -ly / 2 + (j : ℝ) * (ly / (ny : ℝ))
    f i j * Complex.exp (-(Complex.I * ((V x y : ℝ) : ℂ) * (dt : ℂ)) / 2)

/-- Claim C1, stage 3: every spectral sample is multiplied by
`exp(−i·(kx_i² + ky_j²)/2·dt)`. -/
def specKineticMult (nx ny : ℤ) (lx ly dt : ℝ) (f : ℕ → ℕ → ℂ) :
    ℕ → ℕ → ℂ :=
  fun i j =>
    let k2 := (specKGrid nx lx i ^ 2 + specKGrid ny ly j ^ 2) / 2
    f i j * Complex.exp (-(Complex.I * ((k2 : ℝ) : ℂ) * (dt : ℂ)))

/-- Claim C1, stage 4 (second half): every sample is divided by `Nx·Ny`. -/
def specDivideByGridSize (nx ny : ℤ) (f : ℕ → ℕ → ℂ) : ℕ → ℕ → ℂ :=
  fun i j => f i j / ((nx : ℂ) * (ny : ℂ))

/-- The full sequence claim C1 states for one `step()`: half-V, forward 2D
DFT, full-K, inverse 2D DFT with division by `Nx·Ny`, half-V. -/
def claimSplitStepSequence (st : EngineState) : ℕ → ℕ → ℂ :=
  specHalfV st.nx st.ny st.lx st.ly st.dt st.potential.getValue
    (specDivideByGridSize st.nx st.ny
      (dft2 1 st.nx st.ny
        (specKineticMult st.nx st.ny st.lx st.ly st.dt
          (dft2 (-1) st.nx st.ny
            (specHalfV st.nx st.ny st.lx st.ly st.dt st.potential.getValue
              st.wavefunction.ψ)))))

end SpecSide

namespace DFTLemmas

/-- One exponential factor of the 1D DFT. -/
noncomputable def eterm (s : ℤ) (N a i : ℕ) : ℂ :=
  Complex.exp ((s : ℂ) * (2 * (Real.pi : ℂ) * Complex.I) *
    ((a : ℂ) * (i : ℂ) / (N : ℂ)))

/-- The 1D DFT of length `N` with sign `s`, the building block of `dft2`. -/
noncomputable def dft1 (s : ℤ) (N : ℕ) (f : ℕ → ℂ) : ℕ → ℂ :=
  fun a => ∑ i ∈ range N, f i * eterm s N a i

/-- The sum of squared magnitudes over the `(nx, ny)` grid. -/
noncomputable def sumNormSq (nx ny : ℤ) (f : ℕ → ℕ → ℂ) : ℝ :=
  ∑ i ∈ range nx.toNat, ∑ j ∈ range ny.toNat, Complex.normSq (f i j)

end DFTLemmas

namespace ConcreteTest

open SimulationEngine

/-- A concrete free-space configuration on a 1×1 grid. -/
def sampleConfig : PhysicsConfig :=
  { nx := 1, ny := 1, dt := 1 / 100, omega := 0
    potential := { type := "FreeSpace", parameters := [] }
    wavepacket := { x0 := 0, y0 := 0, sigmaX := 1, sigmaY := 1, kx := 0, ky := 0 }
    output := { checkpointInterval := 0, exportObservables := false } }

/-- The same grid with a different time step. -/
def sampleConfig2 : PhysicsConfig :=
  { nx := 1, ny := 1, dt := 1 / 200, omega := 0
    potential := { type := "FreeSpace", parameters := [] }
    wavepacket := { x0 := 0, y0 := 0, sigmaX := 1, sigmaY := 1, kx := 0, ky := 0 }
    output := { checkpointInterval := 0, exportObservables := false } }

/-- A planner that succeeds and leaves the buffer untouched. -/
def gentlePlanner : Planner :=
  { ok := true, overwrites := false, scratch := fun _ _ => 0 }

/-- A planner that succeeds and overwrites the buffer with zeros — behaviour
the spec explicitly permits for planning (`FFTW_MEASURE` overwrites the
arrays it plans on). -/
def zeroingPlanner : Planner :=
  { ok := true, overwrites := true, scratch := fun _ _ => 0 }

/-- A planner whose plan creation fails (spec §4.3: planning may refuse). -/
def failingPlanner : Planner :=
  { ok := false, overwrites := false, scratch := fun _ _ => 0 }

/-- A concrete engine state matching `sampleConfig`, with the clock advanced
to 5. -/
def sampleState : EngineState :=
  { nx := 1, ny := 1, lx := 20, ly := 20, dx := 20, dy := 20, dt := 1 / 100
    currentTime := 5
    wavefunction := Wavefunction.init 1 1
    potential := FreeSpacePotential
    wavepacket := { x0 := 0, y0 := 0, sigmaX := 1, sigmaY := 1, kx := 0, ky := 0 }
    kx := kGrid 1 20, ky := kGrid 1 20
    plansValid := true
    stepCompletionCallback := none }

/-- The state `construct sampleConfig zeroingPlanner` produces. -/
noncomputable def constructedSample : EngineState :=
  ((construct sampleConfig zeroingPlanner).toOption).getD sampleState

/-- Modelled from the spec: `normalize(Lx, Ly)` as §4.1 words it — compute
`S = Σ|ψ|²·dx·dy`; if `S ≤ 0`, fail with `DegenerateNorm` (mutating
nothing); else multiply `ψ` by `1/√S`.  Stated for comparison with the
source `Wavefunction::normalize`, which has no such check. -/
noncomputable def specNormalize (w : Wavefunction) (lx ly : ℝ) :
    Except EngErr Wavefunction :=
  let S := w.getTotalProbability lx ly
  if S ≤ 0 then Except.error EngErr.DegenerateNorm
  else Except.ok { w with ψ := (fun i j =>
    w.ψ i j * ((1 / Real.sqrt S : ℝ) : ℂ)) }

/-- A configuration that is invalid per spec §7: non-positive grid dimensions
and a negative time step.  At this input the real constructor reaches the
`m_ky(config.ny)` member initializer (`m_wavefunction(0·(−3))` and `m_kx(0)`
allocate zero elements) and `std::vector<double>(-3)` throws
`std::length_error`. -/
def invalidConfig : PhysicsConfig :=
  { nx := 0, ny := -3, dt := -1, omega := 0
    potential := { type := "FreeSpace", parameters := [] }
    wavepacket := { x0 := 0, y0 := 0, sigmaX := 1, sigmaY := 1, kx := 0, ky := 0 }
    output := { checkpointInterval := 0, exportObservables := false } }

/-- A configuration with `nx = 0` (spec scenario S6) and an otherwise valid
grid: every member initializer allocates zero or one elements, and the first
failure is the null-buffer check of `initializeFFTWPlans` on the empty
sample vector. -/
def zeroNxConfig : PhysicsConfig :=
  { nx := 0, ny := 1, dt := 1 / 100, omega := 0
    potential := { type := "FreeSpace", parameters := [] }
    wavepacket := { x0 := 0, y0 := 0, sigmaX := 1, sigmaY := 1, kx := 0, ky := 0 }
    output := { checkpointInterval := 0, exportObservables := false } }

/-- A configuration whose only invalid entry is the non-positive time step
`dt = −1`: nothing in the source inspects `dt` during construction. -/
def negDtConfig : PhysicsConfig :=
  { nx := 1, ny := 1, dt := -1, omega := 0
    potential := { type := "FreeSpace", parameters := [] }
    wavepacket := { x0 := 0, y0 := 0, sigmaX := 1, sigmaY := 1, kx := 0, ky := 0 }
    output := { checkpointInterval := 0, exportObservables := false } }

/-- An engine state on a 1×1 grid whose single sample has `|ψ|²·dx·dy = 1`. -/
def unitState : EngineState :=
  { sampleState with wavefunction := ⟨1, 1, fun _ _ => ⟨1 / 20, 0⟩⟩ }

/-- A 2×2 field whose sample at `(i, j)` is the complex number `i`, so the
row-major and the transposed layouts visibly differ. -/
def cexWavefunction : Wavefunction := ⟨2, 2, fun i _ => (i : ℂ)⟩

/-- An engine state holding `cexWavefunction` on a 2×2 grid. -/
def cexState : EngineState :=
  { sampleState with nx := 2, ny := 2, wavefunction := cexWavefunction }

end ConcreteTest

namespace SpecSide

open SimulationEngine

lemma mk_im_eq_mul_I (r : ℝ) : (⟨0, r⟩ : ℂ) = (r : ℂ) * Complex.I := by
  apply Complex.ext <;> simp

lemma kGrid_getD (n : ℤ) (len : ℝ) (i : ℕ) (hi : i < n.toNat) :
    (kGrid n len).getD i 0 = specKGrid n len i := by
  unfold kGrid specKGrid
  rw [List.getD_eq_getElem?_getD, List.getElem?_map, List.getElem?_range hi]
  rfl

lemma applyPotentialOperator_ψ_eq (st : EngineState)
    (hdx : st.dx = st.lx / (st.nx : ℝ)) (hdy : st.dy = st.ly / (st.ny : ℝ)) :
    (applyPotentialOperator st).wavefunction.ψ =
      specHalfV st.nx st.ny st.lx st.ly st.dt st.potential.getValue
        st.wavefunction.ψ := by
  funext i j
  simp only [applyPotentialOperator, specHalfV]
  rw [hdx, hdy]
  congr 1
  rw [mk_im_eq_mul_I]
  congr 1
  push_cast
  ring

lemma dft2_congr {nx ny : ℤ} (s : ℤ) {f g : ℕ → ℕ → ℂ}
    (h : GridEq nx ny f g) : dft2 s nx ny f = dft2 s nx ny g := by
  funext a b
  refine Finset.sum_congr rfl fun i hi => Finset.sum_congr rfl fun j hj => ?_
  rw [h i j (Finset.mem_range.mp hi) (Finset.mem_range.mp hj)]

lemma applyKineticOperator_ψ (st : EngineState) :
    (applyKineticOperator st).wavefunction.ψ = fun i j =>
      dft2 1 st.nx st.ny (fun a b =>
        dft2 (-1) st.nx st.ny st.wavefunction.ψ a b *
          Complex.exp ⟨0, -st.dt * ((st.kx.getD a 0 * st.kx.getD a 0 +
            st.ky.getD b 0 * st.ky.getD b 0) / 2)⟩) i j *
      ((1 / (((st.nx * st.ny : ℤ)) : ℝ) : ℝ) : ℂ) := rfl

lemma stepState_ψ (st : EngineState) :
    (stepState st).wavefunction.ψ =
      (applyPotentialOperator (applyKineticOperator
        (applyPotentialOperator st))).wavefunction.ψ := rfl

lemma stepState_time (st : EngineState) :
    (stepState st).currentTime = st.currentTime + st.dt := rfl

end SpecSide

namespace DFTLemmas

open SimulationEngine SpecSide

/-- A purely imaginary exponential is a unit-modulus phase. -/
lemma normSq_exp_mk (θ : ℝ) : Complex.normSq (Complex.exp ⟨0, θ⟩) = 1 := by
  rw [Complex.normSq_eq_abs, Complex.abs_exp]
  norm_num

lemma exp_ratio_ne_one {N : ℕ} (hN : 0 < N) {d : ℤ} (hd : ¬ (N : ℤ) ∣ d) :
    Complex.exp ((d : ℂ) * (2 * (Real.pi : ℂ) * Complex.I) / (N : ℂ)) ≠ 1 := by
  intro h
  rw [Complex.exp_eq_one_iff] at h
  obtain ⟨m, hm⟩ := h
  apply hd
  have hNC : (N : ℂ) ≠ 0 := Nat.cast_ne_zero.mpr hN.ne'
  have h2 : (d : ℂ) * (2 * (Real.pi : ℂ) * Complex.I) =
      ((m * N : ℤ) : ℂ) * (2 * (Real.pi : ℂ) * Complex.I) := by
    push_cast
    field_simp at hm
    linear_combination hm
  have h3 : (d : ℂ) = ((m * N : ℤ) : ℂ) :=
    mul_right_cancel₀ Complex.two_pi_I_ne_zero h2
  have h4 : d = m * N := by exact_mod_cast h3
  exact Dvd.intro m (by linarith)

lemma sum_exp_eq_zero {N : ℕ} (hN : 0 < N) {d : ℤ} (hd : ¬ (N : ℤ) ∣ d) :
    ∑ a ∈ range N,
      Complex.exp ((d : ℂ) * (2 * (Real.pi : ℂ) * Complex.I) * (a : ℂ) / (N : ℂ)) = 0 := by
  have hterm : ∀ a : ℕ,
      Complex.exp ((d : ℂ) * (2 * (Real.pi : ℂ) * Complex.I) * (a : ℂ) / (N : ℂ)) =
        Complex.exp ((d : ℂ) * (2 * (Real.pi : ℂ) * Complex.I) / (N : ℂ)) ^ a := by
    intro a
    rw [← Complex.exp_nat_mul]
    congr 1
    ring
  simp only [hterm]
  rw [geom_sum_eq (exp_ratio_ne_one hN hd)]
  have hxN : Complex.exp ((d : ℂ) * (2 * (Real.pi : ℂ) * Complex.I) / (N : ℂ)) ^ N = 1 := by
    rw [← Complex.exp_nat_mul]
    have hNC : (N : ℂ) ≠ 0 := Nat.cast_ne_zero.mpr hN.ne'
    have harg : (N : ℂ) * ((d : ℂ) * (2 * (Real.pi : ℂ) * Complex.I) / (N : ℂ)) =
        (d : ℂ) * (2 * (Real.pi : ℂ) * Complex.I) := by
      field_simp
    rw [harg]
    exact Complex.exp_int_mul_two_pi_mul_I d
  rw [hxN]
  simp

lemma exp_term_mul_conj (s : ℤ) (N a i k : ℕ) :
    Complex.exp ((s : ℂ) * (2 * (Real.pi : ℂ) * Complex.I) *
        ((a : ℂ) * (i : ℂ) / (N : ℂ))) *
      (starRingEnd ℂ) (Complex.exp ((s : ℂ) * (2 * (Real.pi : ℂ) * Complex.I) *
        ((a : ℂ) * (k : ℂ) / (N : ℂ)))) =
      Complex.exp (((s * ((i : ℤ) - (k : ℤ)) : ℤ) : ℂ) *
        (2 * (Real.pi : ℂ) * Complex.I) * (a : ℂ) / (N : ℂ)) := by
  rw [← Complex.exp_conj, ← Complex.exp_add]
  congr 1
  simp only [map_mul, map_div₀, map_ofNat, Complex.conj_I, map_intCast,
    map_natCast, Complex.conj_ofReal]
  push_cast
  ring

lemma sum_exp_mul_conj {N : ℕ} (hN : 0 < N) (s : ℤ) (hs : s = 1 ∨ s = -1)
    {i k : ℕ} (hi : i < N) (hk : k < N) :
    ∑ a ∈ range N,
      Complex.exp ((s : ℂ) * (2 * (Real.pi : ℂ) * Complex.I) *
          ((a : ℂ) * (i : ℂ) / (N : ℂ))) *
        (starRingEnd ℂ) (Complex.exp ((s : ℂ) * (2 * (Real.pi : ℂ) * Complex.I) *
          ((a : ℂ) * (k : ℂ) / (N : ℂ)))) =
      if i = k then (N : ℂ) else 0 := by
  simp only [exp_term_mul_conj]
  by_cases hik : i = k
  · subst hik
    simp
  · rw [if_neg hik]
    apply sum_exp_eq_zero hN
    intro hdvd
    have hd0 : ((i : ℤ) - (k : ℤ)) ≠ 0 := by
      intro h0
      exact hik (by omega)
    have hlt : (s * ((i : ℤ) - (k : ℤ))).natAbs < N := by
      rcases hs with h1 | h1 <;> subst h1 <;> simp <;> omega
    have := Int.eq_zero_of_dvd_of_natAbs_lt_natAbs hdvd (by simpa using hlt)
    rcases hs with h1 | h1 <;> subst h1 <;> simp at this <;> omega

lemma sum_eterm_mul_conj {N : ℕ} (hN : 0 < N) (s : ℤ) (hs : s = 1 ∨ s = -1)
    {i k : ℕ} (hi : i < N) (hk : k < N) :
    ∑ a ∈ range N, eterm s N a i * (starRingEnd ℂ) (eterm s N a k) =
      if i = k then (N : ℂ) else 0 :=
  sum_exp_mul_conj hN s hs hi hk

lemma dft1_parseval_c (s : ℤ) (hs : s = 1 ∨ s = -1) {N : ℕ} (hN : 0 < N)
    (f : ℕ → ℂ) :
    ∑ a ∈ range N, ((Complex.normSq (dft1 s N f a) : ℝ) : ℂ) =
      (N : ℂ) * ∑ i ∈ range N, ((Complex.normSq (f i) : ℝ) : ℂ) := by
  have expand : ∀ a ∈ range N, ((Complex.normSq (dft1 s N f a) : ℝ) : ℂ) =
      ∑ i ∈ range N, ∑ k ∈ range N,
        f i * (starRingEnd ℂ) (f k) *
          (eterm s N a i * (starRingEnd ℂ) (eterm s N a k)) := by
    intro a _
    rw [← Complex.mul_conj]
    unfold dft1
    rw [map_sum, Finset.sum_mul_sum]
    refine Finset.sum_congr rfl fun i _ => Finset.sum_congr rfl fun k _ => ?_
    rw [map_mul]
    ring
  calc ∑ a ∈ range N, ((Complex.normSq (dft1 s N f a) : ℝ) : ℂ)
      = ∑ a ∈ range N, ∑ i ∈ range N, ∑ k ∈ range N,
          f i * (starRingEnd ℂ) (f k) *
            (eterm s N a i * (starRingEnd ℂ) (eterm s N a k)) :=
        Finset.sum_congr rfl expand
    _ = ∑ i ∈ range N, ∑ a ∈ range N, ∑ k ∈ range N,
          f i * (starRingEnd ℂ) (f k) *
            (eterm s N a i * (starRingEnd ℂ) (eterm s N a k)) :=
        Finset.sum_comm
    _ = ∑ i ∈ range N, ∑ k ∈ range N, ∑ a ∈ range N,
          f i * (starRingEnd ℂ) (f k) *
            (eterm s N a i * (starRingEnd ℂ) (eterm s N a k)) :=
        Finset.sum_congr rfl fun i _ => Finset.sum_comm
    _ = ∑ i ∈ range N, ∑ k ∈ range N,
          f i * (starRingEnd ℂ) (f k) *
            ∑ a ∈ range N, eterm s N a i * (starRingEnd ℂ) (eterm s N a k) := by
        refine Finset.sum_congr rfl fun i _ => Finset.sum_congr rfl fun k _ => ?_
        rw [Finset.mul_sum]
    _ = ∑ i ∈ range N, ∑ k ∈ range N,
          f i * (starRingEnd ℂ) (f k) * (if i = k then (N : ℂ) else 0) := by
        refine Finset.sum_congr rfl fun i hi => Finset.sum_congr rfl fun k hk => ?_
        rw [sum_eterm_mul_conj hN s hs (Finset.mem_range.mp hi)
          (Finset.mem_range.mp hk)]
    _ = ∑ i ∈ range N, f i * (starRingEnd ℂ) (f i) * (N : ℂ) := by
        refine Finset.sum_congr rfl fun i hi => ?_
        simp only [mul_ite, mul_zero, Finset.sum_ite_eq, hi, if_true]
    _ = (N : ℂ) * ∑ i ∈ range N, ((Complex.normSq (f i) : ℝ) : ℂ) := by
        simp only [Complex.mul_conj]
        rw [← Finset.sum_mul, mul_comm]

lemma dft2_eq_dft1 {nx ny : ℤ} (hx : 0 < nx) (hy : 0 < ny) (s : ℤ)
    (f : ℕ → ℕ → ℂ) (a b : ℕ) :
    dft2 s nx ny f a b =
      dft1 s nx.toNat (fun i => dft1 s ny.toNat (f i) b) a := by
  have hxc : ((nx.toNat : ℕ) : ℂ) = (nx : ℂ) := by
    exact_mod_cast congrArg (fun z : ℤ => (z : ℂ)) (Int.toNat_of_nonneg hx.le)
  have hyc : ((ny.toNat : ℕ) : ℂ) = (ny : ℂ) := by
    exact_mod_cast congrArg (fun z : ℤ => (z : ℂ)) (Int.toNat_of_nonneg hy.le)
  unfold dft2 dft1 eterm
  dsimp only
  refine Finset.sum_congr rfl fun i _ => ?_
  rw [Finset.sum_mul]
  refine Finset.sum_congr rfl fun j _ => ?_
  rw [hxc, hyc, mul_add, Complex.exp_add]
  ring

lemma dft2_parseval_c {nx ny : ℤ} (hx : 0 < nx) (hy : 0 < ny) (s : ℤ)
    (hs : s = 1 ∨ s = -1) (f : ℕ → ℕ → ℂ) :
    ∑ a ∈ range nx.toNat, ∑ b ∈ range ny.toNat,
        ((Complex.normSq (dft2 s nx ny f a b) : ℝ) : ℂ) =
      ((nx.toNat : ℕ) : ℂ) * ((ny.toNat : ℕ) : ℂ) *
        ∑ i ∈ range nx.toNat, ∑ j ∈ range ny.toNat,
          ((Complex.normSq (f i j) : ℝ) : ℂ) := by
  have hxN : 0 < nx.toNat := by omega
  have hyN : 0 < ny.toNat := by omega
  calc ∑ a ∈ range nx.toNat, ∑ b ∈ range ny.toNat,
        ((Complex.normSq (dft2 s nx ny f a b) : ℝ) : ℂ)
      = ∑ b ∈ range ny.toNat, ∑ a ∈ range nx.toNat,
          ((Complex.normSq (dft1 s nx.toNat
            (fun i => dft1 s ny.toNat (f i) b) a) : ℝ) : ℂ) := by
        rw [Finset.sum_comm]
        refine Finset.sum_congr rfl fun b _ => Finset.sum_congr rfl fun a _ => ?_
        rw [dft2_eq_dft1 hx hy s f a b]
    _ = ∑ b ∈ range ny.toNat, ((nx.toNat : ℕ) : ℂ) *
          ∑ i ∈ range nx.toNat,
            ((Complex.normSq (dft1 s ny.toNat (f i) b) : ℝ) : ℂ) :=
        Finset.sum_congr rfl fun b _ => dft1_parseval_c s hs hxN _
    _ = ((nx.toNat : ℕ) : ℂ) * ∑ i ∈ range nx.toNat, ∑ b ∈ range ny.toNat,
          ((Complex.normSq (dft1 s ny.toNat (f i) b) : ℝ) : ℂ) := by
        rw [← Finset.mul_sum, Finset.sum_comm]
    _ = ((nx.toNat : ℕ) : ℂ) * ∑ i ∈ range nx.toNat, ((ny.toNat : ℕ) : ℂ) *
          ∑ j ∈ range ny.toNat, ((Complex.normSq (f i j) : ℝ) : ℂ) := by
        congr 1
        exact Finset.sum_congr rfl fun i _ => dft1_parseval_c s hs hyN _
    _ = ((nx.toNat : ℕ) : ℂ) * ((ny.toNat : ℕ) : ℂ) *
          ∑ i ∈ range nx.toNat, ∑ j ∈ range ny.toNat,
            ((Complex.normSq (f i j) : ℝ) : ℂ) := by
        rw [← Finset.mul_sum]
        ring

lemma sumNormSq_mul_phase (nx ny : ℤ) (f : ℕ → ℕ → ℂ) (θ : ℕ → ℕ → ℝ) :
    sumNormSq nx ny (fun i j => f i j * Complex.exp ⟨0, θ i j⟩) =
      sumNormSq nx ny f := by
  unfold sumNormSq
  refine Finset.sum_congr rfl fun i _ => Finset.sum_congr rfl fun j _ => ?_
  rw [Complex.normSq_mul, normSq_exp_mk, mul_one]

lemma sumNormSq_scale (nx ny : ℤ) (f : ℕ → ℕ → ℂ) (r : ℝ) :
    sumNormSq nx ny (fun i j => f i j * (r : ℂ)) =
      r ^ 2 * sumNormSq nx ny f := by
  unfold sumNormSq
  rw [Finset.mul_sum]
  refine Finset.sum_congr rfl fun i _ => ?_
  rw [Finset.mul_sum]
  refine Finset.sum_congr rfl fun j _ => ?_
  rw [Complex.normSq_mul, Complex.normSq_ofReal]
  ring

lemma sumNormSq_dft2 {nx ny : ℤ} (hx : 0 < nx) (hy : 0 < ny) (s : ℤ)
    (hs : s = 1 ∨ s = -1) (f : ℕ → ℕ → ℂ) :
    sumNormSq nx ny (dft2 s nx ny f) =
      ((nx.toNat * ny.toNat : ℕ) : ℝ) * sumNormSq nx ny f := by
  have hc := dft2_parseval_c hx hy s hs f
  apply Complex.ofReal_injective
  unfold sumNormSq
  push_cast
  push_cast at hc
  linear_combination hc

lemma stepState_sumNormSq (st : EngineState) :
    sumNormSq st.nx st.ny (stepState st).wavefunction.ψ =
      sumNormSq st.nx st.ny st.wavefunction.ψ := by
  by_cases hx : 0 < st.nx
  · by_cases hy : 0 < st.ny
    · set stA := applyPotentialOperator st with hstA
      set stK := applyKineticOperator stA with hstK
      rw [stepState_ψ st]
      rw [show (applyPotentialOperator stK).wavefunction.ψ = fun i j =>
        stK.wavefunction.ψ i j * Complex.exp ⟨0, -st.dt *
          (st.potential.getValue (-st.lx / 2 + (i : ℝ) * st.dx)
            (-st.ly / 2 + (j : ℝ) * st.dy)) / 2⟩ from rfl]
      rw [sumNormSq_mul_phase]
      rw [show stK.wavefunction.ψ = fun i j =>
        dft2 1 st.nx st.ny (fun a b =>
          dft2 (-1) st.nx st.ny stA.wavefunction.ψ a b *
            Complex.exp ⟨0, -st.dt * ((st.kx.getD a 0 * st.kx.getD a 0 +
              st.ky.getD b 0 * st.ky.getD b 0) / 2)⟩) i j *
          ((1 / (((st.nx * st.ny : ℤ)) : ℝ) : ℝ) : ℂ) from rfl]
      rw [sumNormSq_scale, sumNormSq_dft2 hx hy 1 (Or.inl rfl),
        sumNormSq_mul_phase, sumNormSq_dft2 hx hy (-1) (Or.inr rfl)]
      rw [show stA.wavefunction.ψ = fun i j =>
        st.wavefunction.ψ i j * Complex.exp ⟨0, -st.dt *
          (st.potential.getValue (-st.lx / 2 + (i : ℝ) * st.dx)
            (-st.ly / 2 + (j : ℝ) * st.dy)) / 2⟩ from rfl]
      rw [sumNormSq_mul_phase]
      have hCZ : (st.nx * st.ny : ℤ) = ((st.nx.toNat * st.ny.toNat : ℕ) : ℤ) := by
        push_cast
        rw [Int.toNat_of_nonneg hx.le, Int.toNat_of_nonneg hy.le]
      have hC : ((st.nx * st.ny : ℤ) : ℝ) =
          ((st.nx.toNat * st.ny.toNat : ℕ) : ℝ) := by exact_mod_cast hCZ
      rw [hC]
      have h1 : ((st.nx.toNat : ℕ) : ℝ) ≠ 0 := by
        have : st.nx.toNat ≠ 0 := by omega
        exact_mod_cast this
      have h2 : ((st.ny.toNat : ℕ) : ℝ) ≠ 0 := by
        have : st.ny.toNat ≠ 0 := by omega
        exact_mod_cast this
      field_simp
      ring
    · have h0 : st.ny.toNat = 0 := by omega
      simp [sumNormSq, h0]
  · have h0 : st.nx.toNat = 0 := by omega
    simp [sumNormSq, h0]

lemma getTotalProbability_eq_sumNormSq (st : EngineState)
    (hwx : st.wavefunction.nx = st.nx) (hwy : st.wavefunction.ny = st.ny) :
    getTotalProbability st =
      sumNormSq st.nx st.ny st.wavefunction.ψ *
        (st.lx / (st.nx : ℝ) * (st.ly / (st.ny : ℝ))) := by
  unfold getTotalProbability Wavefunction.getTotalProbability sumNormSq
  rw [hwx, hwy]
  dsimp only
  rw [Finset.sum_mul]
  refine Finset.sum_congr rfl fun i _ => ?_
  rw [Finset.sum_mul]
  refine Finset.sum_congr rfl fun j _ => ?_
  ring

lemma stepState_preserves_totalProbability (st : EngineState)
    (hwx : st.wavefunction.nx = st.nx) (hwy : st.wavefunction.ny = st.ny) :
    getTotalProbability (stepState st) = getTotalProbability st := by
  have h1 : (stepState st).wavefunction.nx = (stepState st).nx := hwx
  have h2 : (stepState st).wavefunction.ny = (stepState st).ny := hwy
  rw [getTotalProbability_eq_sumNormSq (stepState st) h1 h2,
    getTotalProbability_eq_sumNormSq st hwx hwy]
  rw [show (stepState st).nx = st.nx from rfl,
    show (stepState st).ny = st.ny from rfl,
    show (stepState st).lx = st.lx from rfl,
    show (stepState st).ly = st.ly from rfl]
  rw [stepState_sumNormSq st]

lemma stepState_iterate_fields (st : EngineState) (n : ℕ) :
    ((stepState)^[n] st).nx = st.nx ∧ ((stepState)^[n] st).ny = st.ny ∧
    ((stepState)^[n] st).wavefunction.nx = st.wavefunction.nx ∧
    ((stepState)^[n] st).wavefunction.ny = st.wavefunction.ny := by
  induction n with
  | zero => exact ⟨rfl, rfl, rfl, rfl⟩
  | succ n ih =>
    rw [Function.iterate_succ_apply']
    exact ⟨ih.1, ih.2.1, ih.2.2.1, ih.2.2.2⟩

end DFTLemmas

namespace ConcreteTest

open SimulationEngine

lemma gaussian_1x1_value (w : Wavefunction) (hx : w.nx = 1) (hy : w.ny = 1) :
    (w.initializeGaussian 0 0 1 1 0 0 20 20).ψ 0 0 = 1 / 20 := by
  obtain ⟨nx, ny, f⟩ := w
  subst hx
  subst hy
  unfold Wavefunction.initializeGaussian Wavefunction.normalize
    Wavefunction.getTotalProbability
  dsimp only
  norm_num [Finset.sum_range_one]
  rw [show (⟨0, 0⟩ : ℂ) = 0 from rfl, Complex.exp_zero]
  simp only [Complex.normSq_one, mul_one]
  have hre : Complex.normSq (Complex.exp (-100 : ℂ)) =
      Real.exp (-100) * Real.exp (-100) := by
    rw [Complex.normSq_eq_abs, Complex.abs_exp, sq]
    norm_num
  rw [hre]
  rw [show Real.exp (-100 : ℝ) * Real.exp (-100 : ℝ) = Real.exp (-100 : ℝ) ^ 2
    from (sq (Real.exp (-100))).symm]
  rw [Real.sqrt_sq (Real.exp_pos _).le]
  rw [show Complex.exp (-100 : ℂ) = ((Real.exp (-100 : ℝ) : ℝ) : ℂ) from by
    rw [Complex.ofReal_exp]
    norm_num]
  have he : Real.exp (-100 : ℝ) ≠ 0 := Real.exp_ne_zero _
  have hs : Real.sqrt 20 ≠ 0 := by positivity
  have h20 : Real.sqrt 20 * Real.sqrt 20 = 20 := Real.mul_self_sqrt (by norm_num)
  norm_cast
  field_simp
  ring_nf
  have h20c : ((Real.sqrt 20 : ℝ) : ℂ) ^ 2 = 20 := by
    rw [sq, ← Complex.ofReal_mul, h20]
    norm_num
  rw [h20c]

lemma unitState_totalProbability : getTotalProbability unitState = 1 := by
  unfold getTotalProbability Wavefunction.getTotalProbability
  dsimp only
  show (∑ i ∈ range (Int.toNat 1), ∑ j ∈ range (Int.toNat 1),
    Complex.normSq ⟨1 / 20, 0⟩ * ((20 : ℝ) / ((1 : ℤ) : ℝ)) *
      ((20 : ℝ) / ((1 : ℤ) : ℝ))) = 1
  rw [show Int.toNat 1 = 1 from rfl, Finset.sum_range_one, Finset.sum_range_one]
  norm_num [Complex.normSq_mk]

end ConcreteTest

section Claims

open SimulationEngine SpecSide DFTLemmas ConcreteTest

/-- C1: for every Propagator state whose cached spacings and k-vectors agree
with its grid (as construction and reconfiguration guarantee), one `step()`
transforms the wavefunction, at every grid point, exactly as the symmetric
split-step sequence — half-V multiply, forward 2D DFT, full-K multiply,
inverse 2D DFT with division by `Nx·Ny`, half-V multiply — and increments
`t` by `dt`. -/
theorem claim1_step_is_split_step_sequence (st : EngineState)
    (hdx : st.dx = st.lx / (st.nx : ℝ)) (hdy : st.dy = st.ly / (st.ny : ℝ))
    (hkx : st.kx = kGrid st.nx st.lx) (hky : st.ky = kGrid st.ny st.ly) :
    GridEq st.nx st.ny (stepState st).wavefunction.ψ
      (claimSplitStepSequence st) ∧
    (stepState st).currentTime = st.currentTime + st.dt := by
  refine ⟨?_, stepState_time st⟩
  intro i j hi hj
  set stA := applyPotentialOperator st with hstA
  set stK := applyKineticOperator stA with hstK
  have h1 : stA.wavefunction.ψ =
      specHalfV st.nx st.ny st.lx st.ly st.dt st.potential.getValue
        st.wavefunction.ψ :=
    applyPotentialOperator_ψ_eq st hdx hdy
  have hKmid : GridEq st.nx st.ny
      (fun a b =>
        dft2 (-1) st.nx st.ny stA.wavefunction.ψ a b *
          Complex.exp ⟨0, -st.dt * ((st.kx.getD a 0 * st.kx.getD a 0 +
            st.ky.getD b 0 * st.ky.getD b 0) / 2)⟩)
      (specKineticMult st.nx st.ny st.lx st.ly st.dt
        (dft2 (-1) st.nx st.ny
          (specHalfV st.nx st.ny st.lx st.ly st.dt st.potential.getValue
            st.wavefunction.ψ))) := by
    intro a b ha hb
    dsimp only
    rw [h1, hkx, hky, kGrid_getD st.nx st.lx a ha, kGrid_getD st.ny st.ly b hb]
    unfold specKineticMult
    dsimp only
    congr 1
    rw [mk_im_eq_mul_I]
    congr 1
    push_cast
    ring
  have h2 : stK.wavefunction.ψ i j =
      specDivideByGridSize st.nx st.ny
        (dft2 1 st.nx st.ny
          (specKineticMult st.nx st.ny st.lx st.ly st.dt
            (dft2 (-1) st.nx st.ny
              (specHalfV st.nx st.ny st.lx st.ly st.dt st.potential.getValue
                st.wavefunction.ψ)))) i j := by
    show dft2 1 st.nx st.ny (fun a b =>
        dft2 (-1) st.nx st.ny stA.wavefunction.ψ a b *
          Complex.exp ⟨0, -st.dt * ((st.kx.getD a 0 * st.kx.getD a 0 +
            st.ky.getD b 0 * st.ky.getD b 0) / 2)⟩) i j *
        ((1 / (((st.nx * st.ny : ℤ)) : ℝ) : ℝ) : ℂ) = _
    rw [dft2_congr 1 hKmid]
    unfold specDivideByGridSize
    push_cast
    ring
  have h3 : (applyPotentialOperator stK).wavefunction.ψ =
      specHalfV st.nx st.ny st.lx st.ly st.dt st.potential.getValue
        stK.wavefunction.ψ :=
    applyPotentialOperator_ψ_eq stK hdx hdy
  rw [stepState_ψ st]
  show (applyPotentialOperator stK).wavefunction.ψ i j = _
  rw [h3]
  unfold claimSplitStepSequence specHalfV
  rw [h2]
  rfl

/-- Witness for C1 at a concrete 1×1 free-space state. -/
theorem claim1_step_is_split_step_sequence_witness :
    SpecSide.GridEq sampleState.nx sampleState.ny
      (stepState sampleState).wavefunction.ψ
      (SpecSide.claimSplitStepSequence sampleState) ∧
    (stepState sampleState).currentTime =
      sampleState.currentTime + sampleState.dt :=
  claim1_step_is_split_step_sequence sampleState (by norm_num [sampleState])
    (by norm_num [sampleState]) rfl rfl

/-- C2: in exact arithmetic, stepping leaves the total probability
`Σ|ψ(i,j)|²·dx·dy` unchanged — after any number of steps, with any stationary
potential — and in particular a state of total probability 1 stays within
10⁻⁶ of 1. -/
theorem claim2_norm_conserved (st : EngineState) (n : ℕ)
    (hwx : st.wavefunction.nx = st.nx) (hwy : st.wavefunction.ny = st.ny) :
    getTotalProbability ((stepState)^[n] st) = getTotalProbability st ∧
    (getTotalProbability st = 1 →
      |getTotalProbability ((stepState)^[n] st) - 1| < 1 / 1000000) := by
  have main : ∀ m : ℕ,
      getTotalProbability ((stepState)^[m] st) = getTotalProbability st := by
    intro m
    induction m with
    | zero => rfl
    | succ m ih =>
      rw [Function.iterate_succ_apply']
      have hfs := stepState_iterate_fields st m
      have h1 : ((stepState)^[m] st).wavefunction.nx = ((stepState)^[m] st).nx := by
        rw [hfs.2.2.1, hfs.1, hwx]
      have h2 : ((stepState)^[m] st).wavefunction.ny = ((stepState)^[m] st).ny := by
        rw [hfs.2.2.2, hfs.2.1, hwy]
      rw [stepState_preserves_totalProbability _ h1 h2]
      exact ih
  refine ⟨main n, fun h1 => ?_⟩
  rw [main n, h1]
  norm_num

/-- Witness for C2: three steps from a concretely normalized state. -/
theorem claim2_norm_conserved_witness :
    getTotalProbability ((stepState)^[3] unitState) =
      getTotalProbability unitState ∧
    |getTotalProbability ((stepState)^[3] unitState) - 1| < 1 / 1000000 :=
  ⟨(claim2_norm_conserved unitState 3 rfl rfl).1,
    (claim2_norm_conserved unitState 3 rfl rfl).2 unitState_totalProbability⟩

/-- C3 (refuting the claim as stated): `updateConfig` is not atomic.  When
plan creation fails during reconfiguration, the surfaced `PlanCreation` error
leaves the engine holding the new `dt` (1/200, not the old 1/100) together
with a zero-initialized, never-populated wavefunction — a state equal neither
to the previous configuration nor to the fully installed new one. -/
theorem claim3_updateConfig_not_atomic :
    (updateConfig sampleConfig2 failingPlanner sampleState).1 =
      some EngErr.PlanCreation ∧
    (updateConfig sampleConfig2 failingPlanner sampleState).2.dt = 1 / 200 ∧
    sampleState.dt = 1 / 100 ∧
    (updateConfig sampleConfig2 failingPlanner sampleState).2.wavefunction.ψ 0 0
      = 0 ∧
    (updateConfig sampleConfig2 gentlePlanner sampleState).2.wavefunction.ψ 0 0
      = 1 / 20 ∧
    (updateConfig sampleConfig2 failingPlanner sampleState).2 ≠ sampleState ∧
    (updateConfig sampleConfig2 failingPlanner sampleState).2 ≠
      (updateConfig sampleConfig2 gentlePlanner sampleState).2 := by
  refine ⟨rfl, rfl, rfl, rfl, ?_, ?_, ?_⟩
  · exact ConcreteTest.gaussian_1x1_value _ rfl rfl
  · intro h
    have hd := congrArg EngineState.dt h
    rw [show EngineState.dt (updateConfig sampleConfig2 failingPlanner
        sampleState).2 = 1 / 200 from rfl,
      show EngineState.dt sampleState = 1 / 100 from rfl] at hd
    norm_num at hd
  · intro h
    have hw := congrArg (fun s : EngineState => s.wavefunction.ψ 0 0) h
    dsimp only at hw
    have hg2 : (updateConfig sampleConfig2 gentlePlanner
        sampleState).2.wavefunction.ψ 0 0 = 1 / 20 :=
      ConcreteTest.gaussian_1x1_value _ rfl rfl
    rw [show (updateConfig sampleConfig2 failingPlanner
        sampleState).2.wavefunction.ψ 0 0 = 0 from rfl, hg2] at hw
    norm_num at hw

/-- C4 (refuting the claim as stated): the constructor calls
`initializeWavefunction()` *before* `initializeFFTWPlans()`, so a planner
that overwrites the buffer (as `FFTW_MEASURE` may) destroys the Gaussian: the
freshly constructed engine holds sample 0 at (0,0), whereas the normalized
Gaussian specified by the stored wavepacket has sample 1/20 there. -/
theorem claim4_construct_plans_after_gaussian :
    construct sampleConfig zeroingPlanner = Except.ok constructedSample ∧
    constructedSample.wavefunction.ψ 0 0 = 0 ∧
    ((Wavefunction.init 1 1).initializeGaussian 0 0 1 1 0 0 20 20).ψ 0 0 =
      1 / 20 := by
  refine ⟨rfl, rfl, ?_⟩
  exact ConcreteTest.gaussian_1x1_value _ rfl rfl

/-- C5, counterexample to the claim as stated: on a 2×2 grid with
`ψ(i,j) = i`, the Propagator density entry `0·Ny + 1 = 1` holds 1, not
`|ψ(0,1)|² = 0`. -/
theorem claim5_density_layout_counterexample :
    (getProbabilityDensity cexState).getD (0 * 2 + 1) 0 = 1 ∧
    Complex.normSq (cexState.wavefunction.ψ 0 1) = 0 ∧
    (getProbabilityDensity cexState).getD (0 * 2 + 1) 0 ≠
      Complex.normSq (cexState.wavefunction.ψ 0 1) := by
  have h1 : (getProbabilityDensity cexState).getD (0 * 2 + 1) 0 = 1 := by
    unfold getProbabilityDensity
    rw [List.getD_eq_getElem?_getD, List.getElem?_map,
      show cexState.nx.toNat * cexState.ny.toNat = 4 from rfl,
      List.getElem?_range (by norm_num : 0 * 2 + 1 < 4)]
    show Complex.normSq (cexState.wavefunction.ψ 1 0) = 1
    show Complex.normSq ((1 : ℕ) : ℂ) = 1
    simp
  have h2 : Complex.normSq (cexState.wavefunction.ψ 0 1) = 0 := by
    show Complex.normSq ((0 : ℕ) : ℂ) = 0
    simp
  refine ⟨h1, h2, ?_⟩
  rw [h1, h2]
  norm_num

/-- C5 (amended): the field\'s own `getProbabilityDensity` is row-major —
entry `i·Ny + j` holds `|ψ(i,j)|²` — but the Propagator\'s
`getProbabilityDensity` writes entry `j·Nx + i` (the transposed, y-major
layout); both arrays have `Nx·Ny` entries. -/
theorem claim5_density_layout_amended (w : Wavefunction) (st : EngineState) (i j : ℕ)
    (hiw : i < w.nx.toNat) (hjw : j < w.ny.toNat)
    (his : i < st.nx.toNat) (hjs : j < st.ny.toNat) :
    (w.getProbabilityDensity).getD (i * w.ny.toNat + j) 0 =
      Complex.normSq (w.ψ i j) ∧
    (getProbabilityDensity st).getD (j * st.nx.toNat + i) 0 =
      Complex.normSq (st.wavefunction.ψ i j) ∧
    (w.getProbabilityDensity).length = w.nx.toNat * w.ny.toNat ∧
    (getProbabilityDensity st).length = st.nx.toNat * st.ny.toNat := by
  refine ⟨?_, ?_, ?_, ?_⟩
  · have hN : 0 < w.ny.toNat := by omega
    have hidx : i * w.ny.toNat + j < w.nx.toNat * w.ny.toNat := by
      have h1 : i * w.ny.toNat + j < (i + 1) * w.ny.toNat := by
        rw [Nat.succ_mul]
        omega
      have h2 : (i + 1) * w.ny.toNat ≤ w.nx.toNat * w.ny.toNat :=
        Nat.mul_le_mul_right _ (by omega)
      omega
    unfold Wavefunction.getProbabilityDensity
    rw [List.getD_eq_getElem?_getD, List.getElem?_map,
      List.getElem?_range hidx]
    have hdiv : (i * w.ny.toNat + j) / w.ny.toNat = i := by
      rw [mul_comm, Nat.mul_add_div hN, Nat.div_eq_of_lt hjw]
      omega
    have hmod : (i * w.ny.toNat + j) % w.ny.toNat = j := by
      rw [add_comm, Nat.add_mul_mod_self_right, Nat.mod_eq_of_lt hjw]
    show Complex.normSq (w.ψ ((i * w.ny.toNat + j) / w.ny.toNat)
      ((i * w.ny.toNat + j) % w.ny.toNat)) = _
    rw [hdiv, hmod]
  · have hN : 0 < st.nx.toNat := by omega
    have hidx : j * st.nx.toNat + i < st.nx.toNat * st.ny.toNat := by
      have h1 : j * st.nx.toNat + i < (j + 1) * st.nx.toNat := by
        rw [Nat.succ_mul]
        omega
      have h2 : (j + 1) * st.nx.toNat ≤ st.ny.toNat * st.nx.toNat :=
        Nat.mul_le_mul_right _ (by omega)
      have h3 : st.ny.toNat * st.nx.toNat = st.nx.toNat * st.ny.toNat :=
        Nat.mul_comm _ _
      omega
    unfold getProbabilityDensity
    rw [List.getD_eq_getElem?_getD, List.getElem?_map,
      List.getElem?_range hidx]
    have hdiv : (j * st.nx.toNat + i) / st.nx.toNat = j := by
      rw [mul_comm, Nat.mul_add_div hN, Nat.div_eq_of_lt his]
      omega
    have hmod : (j * st.nx.toNat + i) % st.nx.toNat = i := by
      rw [add_comm, Nat.add_mul_mod_self_right, Nat.mod_eq_of_lt his]
    show Complex.normSq (st.wavefunction.ψ
      ((j * st.nx.toNat + i) % st.nx.toNat)
      ((j * st.nx.toNat + i) / st.nx.toNat)) = _
    rw [hdiv, hmod]
  · unfold Wavefunction.getProbabilityDensity
    rw [List.length_map, List.length_range]
  · unfold getProbabilityDensity
    rw [List.length_map, List.length_range]

/-- Witness for C5 (amended) at the concrete 2×2 field, at grid point (1,0). -/
theorem claim5_density_layout_witness :
    (cexWavefunction.getProbabilityDensity).getD
        (1 * cexWavefunction.ny.toNat + 0) 0 =
      Complex.normSq (cexWavefunction.ψ 1 0) ∧
    (getProbabilityDensity cexState).getD (0 * cexState.nx.toNat + 1) 0 =
      Complex.normSq (cexState.wavefunction.ψ 1 0) ∧
    (cexWavefunction.getProbabilityDensity).length =
      cexWavefunction.nx.toNat * cexWavefunction.ny.toNat ∧
    (getProbabilityDensity cexState).length =
      cexState.nx.toNat * cexState.ny.toNat :=
  claim5_density_layout_amended cexWavefunction cexState 1 0 (by decide) (by decide)
    (by decide) (by decide)

/-- C6 (the claim states intended behaviour the code lacks): on the all-zero
2×2 field the computed total probability is 0 and the spec-modelled
`normalize` fails with `DegenerateNorm`, but the source `normalize` is the
unconditional rescale by `1/√S` for every input — it has no `S ≤ 0` check and
no failure path at all. -/
theorem claim6_normalize_unchecked :
    Wavefunction.getTotalProbability (Wavefunction.init 2 2) 1 1 = 0 ∧
    specNormalize (Wavefunction.init 2 2) 1 1 =
      Except.error EngErr.DegenerateNorm ∧
    ∀ (w : Wavefunction) (lx ly : ℝ),
      w.normalize lx ly = { w with ψ := (fun i j =>
        w.ψ i j * ((1 / Real.sqrt (w.getTotalProbability lx ly) : ℝ) : ℂ)) } := by
  have hS : Wavefunction.getTotalProbability (Wavefunction.init 2 2) 1 1 = 0 := by
    unfold Wavefunction.getTotalProbability Wavefunction.init
    simp
  refine ⟨hS, ?_, fun w lx ly => rfl⟩
  unfold specNormalize
  rw [hS]
  norm_num

/-- C7 (the claim states intended behaviour the code lacks): construction
never surfaces `InvalidGrid` or `InvalidDt`, for any configuration and any
planner outcome.  A non-positive `dt` is not rejected at all — `dt = −1`
constructs a usable engine object — while non-positive grid dimensions fail
only incidentally and with the wrong error: `nx = 0` trips the generic
null-buffer `std::runtime_error` of `initializeFFTWPlans`, and `ny = −3` the
`std::length_error` of a negative vector allocation wrapped through
`size_t`. -/
theorem claim7_no_construction_validation :
    (∀ (cfg : PhysicsConfig) (pl : Planner),
      construct cfg pl ≠ Except.error EngErr.InvalidGrid ∧
      construct cfg pl ≠ Except.error EngErr.InvalidDt) ∧
    (∃ st : EngineState, construct negDtConfig gentlePlanner = Except.ok st ∧
      st.dt = -1) ∧
    construct zeroNxConfig gentlePlanner = Except.error EngErr.NullBuffer ∧
    construct invalidConfig gentlePlanner = Except.error EngErr.VectorLength := by
  refine ⟨?_, ⟨(construct negDtConfig gentlePlanner).toOption.getD sampleState,
    rfl, rfl⟩, rfl, rfl⟩
  intro cfg pl
  by_cases h1 : cfg.nx * cfg.ny < 0
  · constructor <;>
      simp [construct, Wavefunction.initE, Wavefunction.init,
        initializeFFTWPlans, initializeWavefunction,
        Wavefunction.initializeGaussian, Wavefunction.normalize, h1]
  · by_cases h2 : cfg.nx < 0
    · constructor <;>
        simp [construct, Wavefunction.initE, Wavefunction.init,
          initializeFFTWPlans, initializeWavefunction,
          Wavefunction.initializeGaussian, Wavefunction.normalize, h1, h2]
    · by_cases h3 : cfg.ny < 0
      · constructor <;>
          simp [construct, Wavefunction.initE, Wavefunction.init,
            initializeFFTWPlans, initializeWavefunction,
            Wavefunction.initializeGaussian, Wavefunction.normalize, h1, h2, h3]
      · by_cases h4 : cfg.nx * cfg.ny = 0
        · constructor <;>
            simp [construct, Wavefunction.initE, Wavefunction.init,
              initializeFFTWPlans, initializeWavefunction,
              Wavefunction.initializeGaussian, Wavefunction.normalize,
              h1, h2, h3, h4]
        · by_cases h5 : pl.ok
          · constructor <;>
              simp [construct, Wavefunction.initE, Wavefunction.init,
                initializeFFTWPlans, initializeWavefunction,
                Wavefunction.initializeGaussian, Wavefunction.normalize,
                h1, h2, h3, h4, h5]
          · constructor <;>
              simp [construct, Wavefunction.initE, Wavefunction.init,
                initializeFFTWPlans, initializeWavefunction,
                Wavefunction.initializeGaussian, Wavefunction.normalize,
                h1, h2, h3, h4, h5]

/-- C8 (refuting the claim as stated): with a buffer-overwriting planner,
construct-then-step-then-reset yields `t = 0` and the Gaussian sample 1/20 at
(0,0), which differs from the state `construct` produced (sample 0) — reset
does not reproduce the constructed state, because the constructor let
planning clobber the freshly initialized Gaussian. -/
theorem claim8_reset_not_construct_state :
    construct sampleConfig zeroingPlanner = Except.ok constructedSample ∧
    getCurrentTime (reset (stepState constructedSample)) = 0 ∧
    (reset (stepState constructedSample)).wavefunction.ψ 0 0 = 1 / 20 ∧
    constructedSample.wavefunction.ψ 0 0 = 0 ∧
    (reset (stepState constructedSample)).wavefunction.ψ 0 0 ≠
      constructedSample.wavefunction.ψ 0 0 := by
  have hg : (reset (stepState constructedSample)).wavefunction.ψ 0 0 = 1 / 20 :=
    ConcreteTest.gaussian_1x1_value _ rfl rfl
  refine ⟨rfl, rfl, hg, rfl, ?_⟩
  rw [hg, show constructedSample.wavefunction.ψ 0 0 = 0 from rfl]
  norm_num

/-- C9, counterexample to the claim as stated: after registering observer 1
and then observer 2, a step invokes only observer 2 — earlier registrations
are not retained. -/
theorem claim9_observer_replaced_counterexample :
    ((step (setStepCompletionCallback 2 (setStepCompletionCallback 1
        sampleState))).2.map Prod.fst) = [2] ∧
    ((step (setStepCompletionCallback 2 (setStepCompletionCallback 1
        sampleState))).2.map Prod.fst) ≠ [1, 2] := by
  constructor
  · rfl
  · intro h
    rw [show ((step (setStepCompletionCallback 2 (setStepCompletionCallback 1
        sampleState))).2.map Prod.fst) = [2] from rfl] at h
    simp at h

/-- C9 (amended): each registration *replaces* the single stored
step-completion observer (registering O then O₂ equals registering O₂
alone), and after each step the stored observer, if any, is invoked exactly
once, synchronously, observing the advanced time `t + dt` and the post-step
wavefunction; the registration survives the step. -/
theorem claim9_observer_replaced_amended (st : EngineState) (o o2 : ℕ) :
    (setStepCompletionCallback o st).stepCompletionCallback = some o ∧
    setStepCompletionCallback o2 (setStepCompletionCallback o st) =
      setStepCompletionCallback o2 st ∧
    (step st).2 = st.stepCompletionCallback.toList.map
      (fun ob => (ob, st.currentTime + st.dt, (stepState st).wavefunction)) ∧
    (stepState st).stepCompletionCallback = st.stepCompletionCallback := by
  refine ⟨rfl, rfl, ?_, rfl⟩
  cases h : st.stepCompletionCallback with
  | none =>
    show (match st.stepCompletionCallback with
      | some o => [(o, _, _)] | none => ([] : List (ℕ × ℝ × Wavefunction))) = _
    rw [h]
    rfl
  | some ob =>
    show (match st.stepCompletionCallback with
      | some o => [(o, _, _)] | none => ([] : List (ℕ × ℝ × Wavefunction))) = _
    rw [h]
    rfl

/-- C10: every call to `updateConfig` that completes without error leaves
`currentTime()` at 0 — reconfiguration re-initializes the wavefunction and
resets the simulation clock, even when grid shape and `dt` are unchanged. -/
theorem claim10_updateConfig_resets_time (cfg : PhysicsConfig) (pl : Planner) (st : EngineState)
    (h : (updateConfig cfg pl st).1 = none) :
    getCurrentTime (updateConfig cfg pl st).2 = 0 := by
  by_cases h1 : cfg.nx * cfg.ny < 0
  · simp [updateConfig, Wavefunction.initE, cleanupFFTWPlans, h1] at h
  · by_cases h2 : cfg.nx < 0
    · simp [updateConfig, Wavefunction.initE, Wavefunction.init,
        cleanupFFTWPlans, h1, h2] at h
    · by_cases h3 : cfg.ny < 0
      · simp [updateConfig, Wavefunction.initE, Wavefunction.init,
          cleanupFFTWPlans, h1, h2, h3] at h
      · by_cases h4 : cfg.nx * cfg.ny = 0
        · simp [updateConfig, Wavefunction.initE, Wavefunction.init,
            initializeFFTWPlans, cleanupFFTWPlans, h1, h2, h3, h4] at h
        · by_cases h5 : pl.ok
          · simp [updateConfig, Wavefunction.initE, Wavefunction.init,
              initializeFFTWPlans, cleanupFFTWPlans, initializeWavefunction,
              getCurrentTime, h1, h2, h3, h4, h5]
          · simp [updateConfig, Wavefunction.initE, Wavefunction.init,
              initializeFFTWPlans, cleanupFFTWPlans, h1, h2, h3, h4, h5] at h

/-- Witness for C10 at a concrete reconfiguration that succeeds. -/
theorem claim10_updateConfig_resets_time_witness :
    SimulationEngine.getCurrentTime
      (SimulationEngine.updateConfig ConcreteTest.sampleConfig2
        ConcreteTest.gentlePlanner ConcreteTest.sampleState).2 = 0 :=
  claim10_updateConfig_resets_time ConcreteTest.sampleConfig2
    ConcreteTest.gentlePlanner ConcreteTest.sampleState rfl

end Claims
